import Mathlib

/-!
Verification development for the Smart-Data-Analyst ingestion and chart
pipeline.  The definitions below are a shallow embedding of the data model
and the data-shaping functions of `src/components/Dashboard.tsx` and
`src/components/DataImport.tsx`: JavaScript numbers are modelled as exact
rationals with an explicit `nan` constructor where the code can produce
`NaN`, rows are association lists from column names to cell values with
JavaScript object-write (overwrite-or-append) semantics, and fallible
steps return `Except`/`Option`.
-/

namespace SDA

/-- A JavaScript runtime value as it occurs in dataset cells.
`num` is a finite number (idealised as an exact rational), `nan` is the
floating-point `NaN` (which still has `typeof === 'number'`). -/
inductive JsValue : Type where
  | num (q : ℚ)
  | nan
  | str (s : String)
  | bool (b : Bool)
  | null
  | undefVal
deriving DecidableEq, Repr

/-- JavaScript `typeof v === 'number'` — true for finite numbers and for `NaN`. -/
def JsValue.isNumberType : JsValue → Bool
  | .num _ => true
  | .nan => true
  | _ => false

/-- Parse the digits of a character list; `none` if any char is not a digit
or the list is empty. -/
def parseDigits : List Char → Option ℕ
  | [] => none
  | cs => cs.foldl (fun acc c =>
      match acc with
      | none => none
      | some n => if c.isDigit then some (n * 10 + (c.toNat - 48)) else none)
      (some 0)

/-- JavaScript `Number(string)` on finite decimal literals: optional
whitespace trimming, empty string is `0`, optional sign, integer part
and/or fractional part.  Hexadecimal, exponent and `Infinity` forms are
not modelled (no claim exercises them); a non-literal string is `NaN`
(`none`). -/
def jsStrToNumber (s : String) : Option ℚ :=
  let t := s.trim
  if t = "" then some 0
  else
    let (sgn, body) : ℚ × List Char :=
      match t.data with
      | '-' :: r => (-1, r)
      | '+' :: r => (1, r)
      | l => (1, l)
    let intChars := body.takeWhile (fun c => c ≠ '.')
    let rest := body.dropWhile (fun c => c ≠ '.')
    match rest with
    | [] =>
      match parseDigits intChars with
      | some n => some (sgn * n)
      | none => none
    | '.' :: fracChars =>
      if intChars = [] ∧ fracChars = [] then none
      else
        let ip : Option ℕ := if intChars = [] then some 0 else parseDigits intChars
        let fp : Option ℚ :=
          if fracChars = [] then some 0
          else match parseDigits fracChars with
            | some f => some ((f : ℚ) / (10 : ℚ) ^ fracChars.length)
            | none => none
        match ip, fp with
        | some i, some f => some (sgn * ((i : ℚ) + f))
        | _, _ => none
    | _ => none

/-- JavaScript `ToNumber` coercion; `none` models `NaN`. -/
def jsToNumber : JsValue → Option ℚ
  | .num q => some q
  | .nan => none
  | .str s => jsStrToNumber s
  | .bool b => some (if b then 1 else 0)
  | .null => some 0
  | .undefVal => none

/-- JavaScript `Boolean(value)` truthiness. -/
def jsTruthy : JsValue → Bool
  | .num q => q ≠ 0
  | .nan => false
  | .str s => s ≠ ""
  | .bool b => b
  | .null => false
  | .undefVal => false

/-- A row of a dataset or of the chart pipeline: an association list from
column name to cell value, in JavaScript object insertion order. -/
abbrev Row := List (String × JsValue)

/-- Property read `row[col]`; a missing key is `undefined`. -/
def rowGet (r : Row) (c : String) : JsValue :=
  match r.lookup c with
  | some v => v
  | none => .undefVal

/-- Property write `row[col] = v` with JavaScript object semantics: overwrite the slot
in place when the key exists, append otherwise. -/
def objSet (r : Row) (c : String) (v : JsValue) : Row :=
  match r with
  | [] => [(c, v)]
  | (k, w) :: rest => if k = c then (k, v) :: rest else (k, w) :: objSet rest c v

/-- Build a row the way both `prepareChartData` loops do: start from
`{ index: idx }` and assign each column in order. -/
def buildRow (idx : ℚ) (cols : List String) (f : String → JsValue) : Row :=
  cols.foldl (fun acc c => objSet acc c (f c)) [("index", .num idx)]

/-- A dataset as imported: rows, ordered column list, and the per-column
metadata map (`columnMeta[col].type`; `none` when the column has no
metadata entry). -/
structure Dataset : Type where
  data : List Row
  columns : List String
  columnMeta : String → Option String

/-- Resolved column type `dataset.columnMeta?.[column]?.type || 'string'`,
type, with the JavaScript falsy-default (`undefined` or `""` both give
`'string'`). -/
def metaType (ds : Dataset) (c : String) : String :=
  match ds.columnMeta c with
  | some t => if t = "" then "string" else t
  | none => "string"

/-- Per-cell coercion of `prepareChartData` step 1, keyed on the resolved
column type. -/
def coerceCell (t : String) (v : JsValue) : JsValue :=
  if t = "number" then
    match jsToNumber v with
    | some q => if v ≠ .str "" ∧ v ≠ .null then .num q else .num 0
    | none => .num 0
  else if t = "date" then v
  else if t = "boolean" then .bool (jsTruthy v)
  else v

/-- Row Normalizer for one row at (0-based) position `i`: attach the
synthetic 1-based `index` and coerce every declared column. -/
def normalizeRow (ds : Dataset) (i : ℕ) (r : Row) : Row :=
  buildRow ((i : ℚ) + 1) ds.columns (fun c => coerceCell (metaType ds c) (rowGet r c))

/-- Row Normalizer over a row sequence (`prepareChartData` step 1). -/
def normalizeRows (ds : Dataset) (rows : List Row) : List Row :=
  rows.enum.map (fun p => normalizeRow ds p.1 p.2)

/-- The `MAX_POINTS` constant of `prepareChartData`. -/
def MAX_POINTS : ℕ := 500

/-- JavaScript `Math.ceil(a / b)` on naturals. -/
def ceilNat (a b : ℕ) : ℕ := (a + b - 1) / b

/-- Split a list into contiguous chunks of `c` elements (the final chunk
may be shorter) — the stride-`chunkSize` slicing loop of
`prepareChartData` step 2. -/
def chunksOf (c : ℕ) : List α → List (List α)
  | [] => []
  | x :: xs =>
    if _h : c = 0 then [x :: xs]
    else (x :: xs).take c :: chunksOf c ((x :: xs).drop c)
termination_by l => l.length
decreasing_by
  simp only [List.length_drop, List.length_cons]
  omega

/-- JavaScript `+` restricted to the value forms the pipeline can feed it
(the chunk-sum accumulator starts at the number `0`).  String operands
concatenate after `ToString`; `NaN` and `undefined` poison numeric
addition. -/
def jsToDisplayString : JsValue → String
  | .num q => if q.den = 1 then toString q.num else toString q
  | .nan => "NaN"
  | .str s => s
  | .bool b => if b then "true" else "false"
  | .null => "null"
  | .undefVal => "undefined"

/-- JavaScript binary `+` on our value forms. -/
def jsAdd (a b : JsValue) : JsValue :=
  match a, b with
  | .str s, v => .str (s ++ jsToDisplayString v)
  | v, .str s => .str (jsToDisplayString v ++ s)
  | v, w =>
    match jsToNumber v, jsToNumber w with
    | some x, some y => .num (x + y)
    | _, _ => .nan

/-- JavaScript `value / n` for a natural divisor; the pipeline only ever
divides by a chunk length, which is positive, so the `n = 0` branch
(JavaScript `Infinity`) is modelled as `nan`. -/
def jsDivNat (v : JsValue) (n : ℕ) : JsValue :=
  match jsToNumber v with
  | some x => if n = 0 then .nan else .num (x / n)
  | none => .nan

/-- Aggregated row for one chunk (`prepareChartData` step 2 inner loop):
`index` is the 1-based chunk position; a column whose first chunk value
has `typeof 'number'` gets the chunk average, any other column gets the
first row's value. -/
def aggChunkRow (cols : List String) (k : ℕ) (chunk : List Row) : Row :=
  buildRow ((k : ℚ) + 1) cols (fun c =>
    if (rowGet (chunk.headD []) c).isNumberType then
      jsDivNat (chunk.foldl (fun s r => jsAdd s (rowGet r c)) (.num 0)) chunk.length
    else rowGet (chunk.headD []) c)

/-- Downsampler of `prepareChartData` step 2: pass rows through untouched
when there are at most `MAX_POINTS` of them, otherwise average contiguous
chunks of `ceil(count / MAX_POINTS)` rows. -/
def downsample (cols : List String) (rows : List Row) : List Row :=
  if rows.length > MAX_POINTS then
    let chunkSize := ceilNat rows.length MAX_POINTS
    (chunksOf chunkSize rows).enum.map (fun p => aggChunkRow cols p.1 p.2)
  else rows

/-- The full `prepareChartData`: normalize then downsample. -/
def prepareChartData (ds : Dataset) : List Row :=
  downsample ds.columns (normalizeRows ds ds.data)

/-! ### KPI Deriver (`generateKPIsFromData`) -/

/-- JavaScript `Math.round` (half-up, toward `+∞`). -/
def jsRound (q : ℚ) : ℤ := Int.floor (q + 1 / 2)

/-- Rounding `Math.round(x * 100) / 100` to 2 decimals. -/
def round2 (q : ℚ) : ℚ := (jsRound (q * 100) : ℚ) / 100

/-- JavaScript `Math.max(...values)` on a non-empty list (the caller guards
emptiness; the empty case, JavaScript `-Infinity`, is unreachable). -/
def listMax : List ℚ → ℚ
  | [] => 0
  | x :: xs => xs.foldl max x

/-- JavaScript `Math.min(...values)` on a non-empty list (empty case unreachable). -/
def listMin : List ℚ → ℚ
  | [] => 0
  | x :: xs => xs.foldl min x

/-- The mean `arr.reduce((s, v) => s + v, 0) / arr.length`; `none` models the
`NaN` produced by `0 / 0` on an empty list. -/
def avgO (l : List ℚ) : Option ℚ :=
  if l.length = 0 then none else some (l.sum / l.length)

/-- First half `values.slice(0, Math.floor(n / 2))`. -/
def firstHalf (vs : List ℚ) : List ℚ := vs.take (vs.length / 2)

/-- Second half `values.slice(Math.floor(n / 2))`. -/
def secondHalf (vs : List ℚ) : List ℚ := vs.drop (vs.length / 2)

/-- JavaScript `>` on possibly-`NaN` numbers: any comparison against
`NaN` is false. -/
def jsGtO : Option ℚ → Option ℚ → Bool
  | some a, some b => a > b
  | _, _ => false

/-- Trend `secondAvg > firstAvg ? 'up' : secondAvg < firstAvg ? 'down' :
'stable'`. -/
def trendOf (vs : List ℚ) : String :=
  let f := avgO (firstHalf vs)
  let s := avgO (secondHalf vs)
  if jsGtO s f then "up" else if jsGtO f s then "down" else "stable"

/-- Change percent `firstAvg !== 0 ? ((secondAvg - firstAvg) / firstAvg) * 100 : 0`,
then rounded to 2 decimals.  `NaN !== 0` is true in JavaScript, so an
empty first half (`firstAvg` = `NaN`) takes the arithmetic branch and
yields `NaN` (`none`). -/
def changePercentOf (vs : List ℚ) : Option ℚ :=
  let f := avgO (firstHalf vs)
  let s := avgO (secondHalf vs)
  if f = some 0 then some (round2 0)
  else
    match f, s with
    | some f0, some s0 => some (round2 ((s0 - f0) / f0 * 100))
    | _, _ => none

/-- Does `s` contain `pat` as a contiguous substring
(JavaScript `String.prototype.includes`)? -/
def charsContain (pat : List Char) : List Char → Bool
  | [] => pat.isEmpty
  | c :: cs => pat.isPrefixOf (c :: cs) || charsContain pat cs

/-- Keyword test `column.toLowerCase().includes(kw)`; lower-casing is applied per
character (ASCII, as for these keyword columns). -/
def containsKw (col kw : String) : Bool :=
  charsContain kw.data (col.data.map Char.toLower)

/-- Humanized name `column.charAt(0).toUpperCase() +
column.slice(1).replace(/([A-Z])/g, ' $1')`. -/
def humanize (s : String) : String :=
  match s.data with
  | [] => ""
  | c :: cs =>
    ⟨c.toUpper :: cs.foldr (fun d acc => if d.isUpper then ' ' :: d :: acc else d :: acc) []⟩

/-- One derived KPI.  `changePercent = none` models a `NaN` percent. -/
structure KPI : Type where
  id : ℕ
  name : String
  value : ℚ
  target : ℚ
  unit : String
  trend : String
  changePercent : Option ℚ
deriving DecidableEq, Repr

/-- Columns whose resolved metadata type is `'number'`. -/
def numericCols (ds : Dataset) : List String :=
  ds.columns.filter (fun c => metaType ds c = "number")

/-- The values `dataset.data.map(row => Number(row[column])).filter(val =>
!isNaN(val) && val !== 0)` — the zero-filtered parseable values of a
column. -/
def nonZeroValues (ds : Dataset) (col : String) : List ℚ :=
  ((ds.data.map (fun r => jsToNumber (rowGet r col))).filterMap id).filter (fun v => v ≠ 0)

/-- The KPI-builder body of `generateKPIsFromData` for the column at
position `i` of the (first four) numeric columns; `none` when every
value filters out. -/
def mkKPI (ds : Dataset) (i : ℕ) (col : String) : Option KPI :=
  let values := nonZeroValues ds col
  if values.length = 0 then none
  else
    some
      { id := i + 1
        name := humanize col
        value := round2 (values.sum / values.length)
        target := round2 (listMax values)
        unit :=
          if containsKw col "revenue" || containsKw col "sales" ||
             containsKw col "price" || containsKw col "cost" then "$" else ""
        trend := trendOf values
        changePercent := changePercentOf values }

/-- The top-level `generateKPIsFromData`: up to four KPIs, one per qualifying numeric
column, dropped columns filtered out (`.filter(Boolean)`). -/
def generateKPIs (ds : Dataset) : List KPI :=
  (((numericCols ds).take 4).enum.map (fun p => mkKPI ds p.1 p.2)).reduceOption

/-- The "vs Maximum" percentage rendered on a KPI card:
`Math.round((kpi.value / kpi.target) * 100)`.  A zero target (JavaScript
`Infinity`/`NaN`) is modelled as `none`. -/
def vsMaxPercent (k : KPI) : Option ℤ :=
  if k.target = 0 then none else some (jsRound (k.value / k.target * 100))

/-! ### Filter/View Engine (`getFilteredChartData`, filter stage) -/

/-- One per-column min/max range filter (`columnFilters[col]`); `none`
components model cleared (`null`) bounds. -/
structure ColFilter : Type where
  min : Option ℚ
  max : Option ℚ
deriving DecidableEq, Repr

/-- JavaScript `row[col] >= m` — relational comparison coerces the cell
via `ToNumber`; comparisons against `NaN` are false. -/
def jsGeNum (v : JsValue) (m : ℚ) : Bool :=
  match jsToNumber v with
  | some q => m ≤ q
  | none => false

/-- JavaScript `row[col] <= m`. -/
def jsLeNum (v : JsValue) (m : ℚ) : Bool :=
  match jsToNumber v with
  | some q => q ≤ m
  | none => false

/-- The per-column filter pass of `getFilteredChartData`: for each
numeric column in order, apply the min bound then the max bound when
set. -/
def applyFilters (cols : List String) (filters : String → Option ColFilter)
    (data : List Row) : List Row :=
  cols.foldl (fun acc col =>
    match filters col with
    | none => acc
    | some f =>
      let acc1 := match f.min with
        | some m => acc.filter (fun r => jsGeNum (rowGet r col) m)
        | none => acc
      match f.max with
      | some m => acc1.filter (fun r => jsLeNum (rowGet r col) m)
      | none => acc1) data

/-- Does one row satisfy the active bounds of a single column's
filter? -/
def colPass (filters : String → Option ColFilter) (col : String) (r : Row) : Bool :=
  match filters col with
  | none => true
  | some f =>
    (match f.min with
     | some m => jsGeNum (rowGet r col) m
     | none => true) &&
    (match f.max with
     | some m => jsLeNum (rowGet r col) m
     | none => true)

/-- Does one row satisfy every active bound of every listed column? -/
def passesAll (cols : List String) (filters : String → Option ColFilter)
    (r : Row) : Bool :=
  cols.all (fun col => colPass filters col r)

/-! ### Time-bucket aggregation (`getTimeGroupedData`, `aggregate`) -/

/-- Result of the `aggregate` closure: the `'none'` method returns the
raw array, every other method returns a number. -/
inductive AggResult : Type where
  | list (l : List ℚ)
  | val (q : ℚ)
deriving DecidableEq, Repr

/-- Ascending numeric sort — `[...arr].sort((a, b) => a - b)`. -/
def sortQ (arr : List ℚ) : List ℚ := arr.mergeSort (fun a b => a ≤ b)

/-- The `aggregate` closure of `getTimeGroupedData`.  Groups are built by
pushing rows, so every group handed to it is non-empty; the `min`, `max`
and `median` defaults for an empty list are unreachable. -/
def aggregate (method : String) (arr : List ℚ) : AggResult :=
  if method = "none" then .list arr
  else if method = "sum" then .val arr.sum
  else if method = "min" then .val (listMin arr)
  else if method = "max" then .val (listMax arr)
  else if method = "median" then
    let sorted := sortQ arr
    let mid := arr.length / 2
    .val (if arr.length % 2 ≠ 0 then sorted.getD mid 0
          else (sorted.getD (mid - 1) 0 + sorted.getD mid 0) / 2)
  else .val (arr.sum / arr.length)

/-! ### JSON import (`processFile`, `application/json` branch) -/

/-- A parsed JSON document. -/
inductive Json : Type where
  | null
  | bool (b : Bool)
  | num (q : ℚ)
  | str (s : String)
  | arr (elems : List Json)
  | obj (fields : List (String × Json))

/-- JavaScript `Object.keys(x)` under `try`: own enumerable keys in insertion order;
strings and arrays expose their index keys; `null` throws a `TypeError`
(caught by the import handler as `'Invalid JSON format'`). -/
def objectKeys : Json → Except String (List String)
  | .obj fs => .ok (fs.map Prod.fst)
  | .null => .error "Invalid JSON format"
  | .str s => .ok ((List.range s.length).map toString)
  | .arr l => .ok ((List.range l.length).map toString)
  | _ => .ok []

/-- The JSON branch of `processFile` after a successful `JSON.parse`:
an array root is the row list, any other root is wrapped as a single
row; columns are the keys of the first row (empty when there are no
rows). -/
def processJson (j : Json) : Except String (List Json × List String) :=
  let data : List Json := match j with
    | .arr l => l
    | _ => [j]
  match data with
  | [] => .ok ([], [])
  | d0 :: _ =>
    match objectKeys d0 with
    | .ok cols => .ok (data, cols)
    | .error e => .error e

/-! ### Concrete example inputs used by witnesses and counterexamples -/

/-- A one-column numeric metadata map. -/
def metaX : String → Option String := fun c => if c = "x" then some "number" else none

/-- Dataset with a single row `x = 5` (zero-filtered value sequence of
length 1, so the trend split has an empty first half). -/
def dsSingle : Dataset := ⟨[[("x", .num 5)]], ["x"], metaX⟩

/-- Dataset with column values `[0, 0, 10, 20]`. -/
def dsZero2 : Dataset :=
  ⟨[[("x", .num 0)], [("x", .num 0)], [("x", .num 10)], [("x", .num 20)]], ["x"], metaX⟩

/-- Dataset with the all-negative column `[-10, -20]`. -/
def dsNeg : Dataset := ⟨[[("x", .num (-10))], [("x", .num (-20))]], ["x"], metaX⟩

/-- Dataset with column values `[10, 20]`. -/
def dsPos : Dataset := ⟨[[("x", .num 10)], [("x", .num 20)]], ["x"], metaX⟩

/-- The KPI the deriver emits for `dsPos`. -/
def kPos : KPI := ⟨1, "X", 15, 20, "", "up", some 100⟩

/-- Chart rows with column `x` values `[1, 5, 10, 15]`. -/
def rowsFilterEx : List Row :=
  [[("x", .num 1)], [("x", .num 5)], [("x", .num 10)], [("x", .num 15)]]

/-- Active filter `x ≥ 5` and `x ≤ 10`. -/
def filtersEx : String → Option ColFilter :=
  fun c => if c = "x" then some ⟨some 5, some 10⟩ else none

/-- A list of 501 identical one-column rows, enough to trigger downsampling. -/
def bigRows : List Row := List.replicate 501 [("x", .num 1)]

/-- The arithmetic mean of a list of rationals (spec-side notion used to
state the KPI trend claims). -/
def listAvg (l : List ℚ) : ℚ := l.sum / l.length

/-- The rational carried by a numeric cell (0 for any other value; only
applied under an all-numeric hypothesis). -/
def getNumD : JsValue → ℚ
  | .num q => q
  | _ => 0

/-- The k-th contiguous chunk of the downsampler's partition (spec-side
formulation: drop `k` chunks, take one chunk). -/
def chunkAt (rows : List Row) (k : ℕ) : List Row :=
  (rows.drop (k * ceilNat rows.length MAX_POINTS)).take (ceilNat rows.length MAX_POINTS)

/-! ## Helper lemmas on the row model -/

theorem rowGet_nil (c : String) : rowGet [] c = .undefVal := rfl

theorem rowGet_cons (k : String) (w : JsValue) (rest : Row) (c : String) :
    rowGet ((k, w) :: rest) c = if c = k then w else rowGet rest c := by
  by_cases h : c = k
  · subst h; simp [rowGet, List.lookup]
  · simp [rowGet, List.lookup, beq_false_of_ne h, h]

theorem rowGet_objSet (r : Row) (c c' : String) (v : JsValue) :
    rowGet (objSet r c v) c' = if c' = c then v else rowGet r c' := by
  induction r with
  | nil => simp [objSet, rowGet_cons]
  | cons kv rest ih =>
    obtain ⟨k, w⟩ := kv
    by_cases hk : k = c
    · subst hk
      simp only [objSet, if_pos rfl]
      by_cases h : c' = k <;> simp [rowGet_cons, h]
    · simp only [objSet, if_neg hk, rowGet_cons, ih]
      by_cases h : c' = k
      · subst h; simp [hk]
      · simp [h]

theorem rowGet_foldl_objSet (cols : List String) (f : String → JsValue)
    (init : Row) (c : String) :
    rowGet (cols.foldl (fun acc x => objSet acc x (f x)) init) c =
      if c ∈ cols then f c else rowGet init c := by
  induction cols generalizing init with
  | nil => simp
  | cons x xs ih =>
    simp only [List.foldl_cons, ih, rowGet_objSet, List.mem_cons]
    by_cases hx : c ∈ xs
    · simp [hx]
    · by_cases hc : c = x
      · simp [hx, hc]
      · simp [hx, hc]

theorem rowGet_buildRow (idx : ℚ) (cols : List String) (f : String → JsValue)
    (c : String) :
    rowGet (buildRow idx cols f) c =
      if c ∈ cols then f c
      else if c = "index" then .num idx else .undefVal := by
  rw [buildRow, rowGet_foldl_objSet]
  by_cases h : c ∈ cols
  · simp [h]
  · by_cases hi : c = "index"
    · subst hi; simp [h, rowGet, List.lookup]
    · simp [h, hi, rowGet, List.lookup, beq_false_of_ne hi]

theorem foldl_objSet_congr (cols : List String) (f g : String → JsValue)
    (init : Row) (h : ∀ c ∈ cols, f c = g c) :
    cols.foldl (fun acc x => objSet acc x (f x)) init =
      cols.foldl (fun acc x => objSet acc x (g x)) init := by
  induction cols generalizing init with
  | nil => rfl
  | cons x xs ih =>
    simp only [List.foldl_cons]
    rw [h x (by simp), ih _ (fun c hc => h c (by simp [hc]))]

theorem buildRow_congr (idx : ℚ) (cols : List String) (f g : String → JsValue)
    (h : ∀ c ∈ cols, f c = g c) : buildRow idx cols f = buildRow idx cols g :=
  foldl_objSet_congr cols f g _ h

/-- Per-cell coercion is stable: coercing an already-coerced cell changes
nothing. -/
theorem coerceCell_idem (t : String) (v : JsValue) :
    coerceCell t (coerceCell t v) = coerceCell t v := by
  by_cases hn : t = "number"
  · subst hn
    simp only [coerceCell, if_pos rfl]
    cases hv : jsToNumber v with
    | none => simp [jsToNumber]
    | some q =>
      by_cases hc : v ≠ JsValue.str "" ∧ v ≠ JsValue.null
      · simp [hc, jsToNumber]
      · simp [hc, jsToNumber]
  · by_cases hd : t = "date"
    · simp [coerceCell, hn, hd]
    · by_cases hb : t = "boolean"
      · simp [coerceCell, hn, hd, hb, jsTruthy]
      · simp [coerceCell, hn, hd, hb]

theorem normalizeRow_idem (ds : Dataset) (i : ℕ) (r : Row) :
    normalizeRow ds i (normalizeRow ds i r) = normalizeRow ds i r := by
  unfold normalizeRow
  apply buildRow_congr
  intro c hc
  rw [rowGet_buildRow, if_pos hc, coerceCell_idem]

theorem normalizeRows_length (ds : Dataset) (rows : List Row) :
    (normalizeRows ds rows).length = rows.length := by
  simp [normalizeRows]

/-- C8: the Row Normalizer's per-cell coercion (number: parse with
empty/non-numeric to 0; date and string/unknown: pass through; boolean:
truthiness; synthetic 1-based index attached) is idempotent: applying it
a second time to its own output, with the same ColumnMeta, yields output
identical to the first application. -/
theorem C8_normalizer_idempotent (ds : Dataset) (rows : List Row) :
    normalizeRows ds (normalizeRows ds rows) = normalizeRows ds rows := by
  apply List.ext_getElem
  · simp [normalizeRows]
  · intro i h1 h2
    simp only [normalizeRows, List.getElem_map, List.getElem_enum]
    exact normalizeRow_idem ds i _

/-! ## Chunking lemmas for the Downsampler -/

theorem chunksOf_length {α : Type} (c : ℕ) (hc : 0 < c) (l : List α) :
    (chunksOf c l).length = ceilNat l.length c := by
  induction l using chunksOf.induct c with
  | case1 =>
    have h0 : (c - 1) / c = 0 := Nat.div_eq_of_lt (by omega)
    simp [chunksOf, ceilNat, h0]
  | case2 x xs h =>
    exact absurd h (by omega)
  | case3 x xs h ih =>
    rw [chunksOf]
    simp only [dif_neg h, List.length_cons, ih, ceilNat, List.length_drop,
      List.length_cons]
    by_cases hle : xs.length + 1 ≤ c
    · have h1 : xs.length + 1 - c = 0 := by omega
      rw [h1]
      have h2 : (0 + c - 1) / c = 0 := Nat.div_eq_of_lt (by omega)
      have h3 : (xs.length + 1 + c - 1) / c = 1 := by
        have e : xs.length + 1 + c - 1 = xs.length + c := by omega
        rw [e, Nat.add_div_right _ hc, Nat.div_eq_of_lt (by omega)]
      omega
    · have h1 : xs.length + 1 + c - 1 = (xs.length + 1 - c + c - 1) + c := by omega
      rw [h1, Nat.add_div_right _ hc]

theorem chunksOf_getElem {α : Type} (c : ℕ) (hc : 0 < c) (l : List α) :
    ∀ k, k < (chunksOf c l).length →
      (chunksOf c l).getD k [] = (l.drop (k * c)).take c := by
  induction l using chunksOf.induct c with
  | case1 => intro k hk; simp [chunksOf] at hk
  | case2 x xs h => exact absurd h (by omega)
  | case3 x xs h ih =>
    intro k hk
    rw [chunksOf] at hk ⊢
    simp only [dif_neg h] at hk ⊢
    cases k with
    | zero => simp
    | succ k =>
      simp only [List.getD_cons_succ]
      simp only [List.length_cons] at hk
      rw [ih k (by omega), List.drop_drop]
      congr 2
      ring

theorem ceilNat_pos (N b : ℕ) (hb : 0 < b) (hN : 0 < N) : 0 < ceilNat N b := by
  unfold ceilNat
  have h := (Nat.one_le_div_iff hb).mpr (show b ≤ N + b - 1 by omega)
  omega

theorem ceil_ceil_le (N : ℕ) (hN : 500 < N) : ceilNat N (ceilNat N 500) ≤ 500 := by
  simp only [ceilNat]
  have h1 := Nat.div_add_mod (N + 500 - 1) 500
  have h2 : (N + 500 - 1) % 500 < 500 := Nat.mod_lt _ (by norm_num)
  set c := (N + 500 - 1) / 500 with hc
  have hcpos : 0 < c := by omega
  have h3 : N ≤ 500 * c := by omega
  have h4 : (N + c - 1) / c < 501 := by
    rw [Nat.div_lt_iff_lt_mul hcpos]
    omega
  omega

/-- C4: for any input row sequence the Downsampler's output has at most
500 rows, and when the input has at most 500 rows the output is exactly
the input (the rows pass through unchanged). -/
theorem C4_downsample_bound (cols : List String) (rows : List Row) :
    (downsample cols rows).length ≤ 500 ∧
    (rows.length ≤ 500 → downsample cols rows = rows) := by
  constructor
  · by_cases hgt : rows.length > 500
    · simp only [downsample, MAX_POINTS, if_pos hgt, List.length_map,
        List.enum_length]
      rw [chunksOf_length _ (ceilNat_pos _ _ (by norm_num) (by omega)) _]
      exact ceil_ceil_le rows.length hgt
    · simp only [downsample, MAX_POINTS, if_neg hgt]
      omega
  · intro h
    simp only [downsample, MAX_POINTS]
    rw [if_neg (by omega)]

theorem C4_downsample_bound_witness :
    (downsample ["x"] rowsFilterEx).length ≤ 500 ∧
    downsample ["x"] rowsFilterEx = rowsFilterEx :=
  ⟨(C4_downsample_bound ["x"] rowsFilterEx).1,
   (C4_downsample_bound ["x"] rowsFilterEx).2 (by decide)⟩

theorem headD_mem {α : Type} (l : List α) (d : α) (h : l ≠ []) : l.headD d ∈ l := by
  cases l with
  | nil => exact absurd rfl h
  | cons x xs => simp

theorem foldl_jsAdd_num (chunk : List Row) (col : String) (a : ℚ)
    (h : ∀ r ∈ chunk, ∃ q, rowGet r col = .num q) :
    chunk.foldl (fun s r => jsAdd s (rowGet r col)) (.num a) =
      .num (a + (chunk.map (fun r => getNumD (rowGet r col))).sum) := by
  induction chunk generalizing a with
  | nil => simp
  | cons r rest ih =>
    obtain ⟨q, hq⟩ := h r (by simp)
    simp only [List.foldl_cons, List.map_cons, List.sum_cons, hq]
    rw [show jsAdd (.num a) (.num q) = .num (a + q) from rfl,
      ih _ (fun r hr => h r (by simp [hr]))]
    congr 1
    simp [getNumD]
    ring

/-- C5: for more than 500 input rows the Downsampler partitions the rows
into contiguous chunks of `ceil(N / 500)` elements in order and emits one
row per chunk: the synthetic index is sequential from 1, a column whose
cells are numbers gets the chunk's arithmetic mean, and a column whose
first chunk value is not a number gets the chunk's first row's value. -/
theorem C5_chunked_averaging (cols : List String) (rows : List Row)
    (hN : 500 < rows.length) :
    (downsample cols rows).length = ceilNat rows.length (ceilNat rows.length 500) ∧
    ("index" ∉ cols → ∀ k, k < (downsample cols rows).length →
      rowGet ((downsample cols rows).getD k []) "index" = .num ((k : ℚ) + 1)) ∧
    (∀ col ∈ cols, (∀ r ∈ rows, ∃ q, rowGet r col = JsValue.num q) →
      ∀ k, k < (downsample cols rows).length →
        rowGet ((downsample cols rows).getD k []) col =
          .num (((chunkAt rows k).map (fun r => getNumD (rowGet r col))).sum /
                (chunkAt rows k).length)) ∧
    (∀ col ∈ cols, ∀ k, k < (downsample cols rows).length →
      ¬ (rowGet ((chunkAt rows k).headD []) col).isNumberType = true →
        rowGet ((downsample cols rows).getD k []) col =
          rowGet ((chunkAt rows k).headD []) col) := by
  have hc : 0 < ceilNat rows.length 500 :=
    ceilNat_pos _ _ (by norm_num) (by omega)
  set c := ceilNat rows.length 500 with hcdef
  have hout : downsample cols rows =
      (chunksOf c rows).enum.map (fun p => aggChunkRow cols p.1 p.2) := by
    simp only [downsample, MAX_POINTS, if_pos hN]
  have hlen : (downsample cols rows).length = ceilNat rows.length c := by
    rw [hout, List.length_map, List.enum_length, chunksOf_length _ hc]
  have hgetout : ∀ k, k < (downsample cols rows).length →
      (downsample cols rows).getD k [] = aggChunkRow cols k (chunkAt rows k) := by
    intro k hk
    rw [hout] at hk ⊢
    have hk2 : k < (chunksOf c rows).length := by
      rw [chunksOf_length _ hc]
      simpa [List.length_map, List.enum_length, chunksOf_length _ hc] using hk
    have hk1 : k < ((chunksOf c rows).enum.map
        (fun p => aggChunkRow cols p.1 p.2)).length := by
      simpa [List.length_map, List.enum_length] using hk2
    rw [List.getD_eq_getElem?_getD, List.getElem?_eq_getElem hk1]
    simp only [List.getElem_map, List.getElem_enum, Option.getD_some]
    congr 1
    have := chunksOf_getElem c hc rows k hk2
    rw [List.getD_eq_getElem?_getD, List.getElem?_eq_getElem hk2,
      Option.getD_some] at this
    rw [this]
    simp [chunkAt, MAX_POINTS, hcdef]
  have hchunk_ne : ∀ k, k < (downsample cols rows).length → chunkAt rows k ≠ [] := by
    intro k hk
    rw [hlen] at hk
    have hmul : (k + 1) * c ≤ ceilNat rows.length c * c :=
      Nat.mul_le_mul_right c (by omega)
    have hdivmul : ceilNat rows.length c * c ≤ rows.length + c - 1 := by
      unfold ceilNat
      exact Nat.div_mul_le_self _ _
    have hklt : k * c < rows.length := by
      have he : (k + 1) * c = k * c + c := by ring
      omega
    have : (chunkAt rows k).length = min c (rows.length - k * c) := by
      simp [chunkAt, MAX_POINTS, ← hcdef, List.length_take, List.length_drop]
    intro hnil
    rw [hnil] at this
    simp at this
    omega
  refine ⟨hlen.trans (by rw [hcdef]), ?_, ?_, ?_⟩
  · intro hidx k hk
    rw [hgetout k hk]
    unfold aggChunkRow
    rw [rowGet_buildRow, if_neg hidx, if_pos rfl]
  · intro col hcol hq k hk
    rw [hgetout k hk]
    unfold aggChunkRow
    rw [rowGet_buildRow, if_pos hcol]
    have hne := hchunk_ne k hk
    have hqchunk : ∀ r ∈ chunkAt rows k, ∃ q, rowGet r col = JsValue.num q := by
      intro r hr
      exact hq r (List.mem_of_mem_drop (List.mem_of_mem_take hr))
    obtain ⟨q0, hq0⟩ := hqchunk _ (headD_mem _ _ hne)
    rw [if_pos (by rw [hq0]; rfl)]
    rw [foldl_jsAdd_num _ _ _ hqchunk]
    have hlenne : (chunkAt rows k).length ≠ 0 := by
      simpa [List.length_eq_zero] using hne
    simp only [jsDivNat, jsToNumber, if_neg hlenne]
    rw [zero_add]
  · intro col hcol k hk hnotnum
    rw [hgetout k hk]
    unfold aggChunkRow
    rw [rowGet_buildRow, if_pos hcol, if_neg hnotnum]

theorem C5_chunked_averaging_witness :
    500 < bigRows.length ∧
    (downsample ["x"] bigRows).length = ceilNat bigRows.length (ceilNat bigRows.length 500) ∧
    rowGet ((downsample ["x"] bigRows).getD 0 []) "x" =
      .num (((chunkAt bigRows 0).map (fun r => getNumD (rowGet r "x"))).sum /
            (chunkAt bigRows 0).length) := by
  have h1 : bigRows.length = 501 := by
    unfold bigRows
    exact List.length_replicate _ _
  have hN : 500 < bigRows.length := by omega
  have h := C5_chunked_averaging ["x"] bigRows hN
  refine ⟨hN, h.1, ?_⟩
  apply h.2.2.1 "x" (by simp)
  · intro r hr
    simp only [bigRows, List.mem_replicate] at hr
    exact ⟨1, by rw [hr.2]; rfl⟩
  · rw [h.1, h1]
    norm_num [ceilNat]

/-! ## Median (time-bucket aggregation) -/

theorem sortQ_perm (arr : List ℚ) : (sortQ arr).Perm arr :=
  List.mergeSort_perm arr _

theorem sortQ_sorted (arr : List ℚ) : List.Sorted (· ≤ ·) (sortQ arr) := by
  have htrans : ∀ (a b c : ℚ), (fun x y : ℚ => (decide (x ≤ y))) a b = true →
      (fun x y : ℚ => (decide (x ≤ y))) b c = true →
      (fun x y : ℚ => (decide (x ≤ y))) a c = true := by
    intro a b c hab hbc
    simp only [decide_eq_true_eq] at hab hbc ⊢
    exact le_trans hab hbc
  have htot : ∀ (a b : ℚ), ((fun x y : ℚ => (decide (x ≤ y))) a b ||
      (fun x y : ℚ => (decide (x ≤ y))) b a) = true := by
    intro a b
    simp only [Bool.or_eq_true, decide_eq_true_eq]
    exact le_total a b
  have h := List.sorted_mergeSort htrans htot arr
  exact List.Pairwise.imp (fun hab => by simpa using hab) h

theorem sortQ_eq (arr s : List ℚ) (hp : s.Perm arr)
    (hs : List.Sorted (· ≤ ·) s) : sortQ arr = s :=
  List.eq_of_perm_of_sorted ((sortQ_perm arr).trans hp.symm) (sortQ_sorted arr) hs

theorem aggregate_median (arr : List ℚ) :
    aggregate "median" arr =
      .val (if arr.length % 2 ≠ 0 then (sortQ arr).getD (arr.length / 2) 0
            else ((sortQ arr).getD (arr.length / 2 - 1) 0 +
                  (sortQ arr).getD (arr.length / 2) 0) / 2) := rfl

/-- C2 (counterexample): on the even-length group `[10, 20]` the
time-bucket median is `15`, the arithmetic mean of the two middle
elements — not `10`, the lower of the two middles as the claim states. -/
theorem C2_median_counterexample :
    aggregate "median" [10, 20] = .val 15 ∧ aggregate "median" [10, 20] ≠ .val 10 := by
  have hs : sortQ [10, 20] = [10, 20] := sortQ_eq _ _ (by decide) (by decide)
  rw [aggregate_median, hs]
  norm_num

/-- C2 (amended): for every non-empty numeric group handed to the
time-bucket aggregator with method `median`, an odd-length group yields
the middle element of the sorted values, and an even-length group yields
the arithmetic mean (not the lower) of the two middle elements. -/
theorem C2_median_amended (arr s : List ℚ) (hp : s.Perm arr)
    (hs : List.Sorted (· ≤ ·) s) (_hne : arr ≠ []) :
    aggregate "median" arr =
      .val (if arr.length % 2 = 1 then s.getD (arr.length / 2) 0
            else (s.getD (arr.length / 2 - 1) 0 + s.getD (arr.length / 2) 0) / 2) := by
  have hseq : sortQ arr = s := sortQ_eq arr s hp hs
  rw [aggregate_median, hseq]
  congr 1
  by_cases hpar : arr.length % 2 = 1
  · rw [if_pos (by omega), if_pos hpar]
  · rw [if_neg (by omega), if_neg hpar]

theorem C2_median_amended_witness :
    List.Perm ([10, 20, 30] : List ℚ) [30, 10, 20] ∧
    List.Sorted (· ≤ ·) ([10, 20, 30] : List ℚ) ∧
    aggregate "median" [30, 10, 20] = .val 20 ∧
    aggregate "median" [10, 20, 30, 40] = .val 25 := by
  refine ⟨by decide, by decide, ?_, ?_⟩
  · rw [C2_median_amended [30, 10, 20] [10, 20, 30] (by decide) (by decide) (by decide)]
    norm_num
  · rw [C2_median_amended [10, 20, 30, 40] [10, 20, 30, 40] (by decide) (by decide)
      (by decide)]
    norm_num

/-! ## JSON import root handling -/

/-- C3 (counterexample): a JSON document whose root is the number `42` —
neither an object nor an array — does not fail: the import wraps it as a
one-row dataset with an empty column list. -/
theorem C3_json_counterexample :
    processJson (.num 42) = .ok ([.num 42], []) := rfl

/-- C3 (amended): a single object root is a one-row dataset with columns
equal to its key list; an array root is the row sequence with columns
equal to the key set of its first element (empty columns for an empty
array); a root that is neither an object nor an array does not fail: any
non-null scalar root is wrapped as a one-row dataset (numbers and
booleans expose no keys, strings expose their character indices), and
only a `null` first row — whose `Object.keys` throws — produces the
`'Invalid JSON format'` error. -/
theorem C3_json_amended :
    (∀ fs, processJson (.obj fs) = .ok ([.obj fs], fs.map Prod.fst)) ∧
    (∀ x xs cols, objectKeys x = .ok cols →
      processJson (.arr (x :: xs)) = .ok (x :: xs, cols)) ∧
    (∀ xs, processJson (.arr (Json.null :: xs)) = .error "Invalid JSON format") ∧
    (processJson (.arr []) = .ok ([], [])) ∧
    (∀ b, processJson (.bool b) = .ok ([.bool b], [])) ∧
    (∀ q, processJson (.num q) = .ok ([.num q], [])) ∧
    (∀ s, processJson (.str s) = .ok ([.str s], (List.range s.length).map toString)) ∧
    (processJson .null = .error "Invalid JSON format") := by
  refine ⟨fun fs => rfl, ?_, fun xs => rfl, rfl, fun b => rfl, fun q => rfl,
    fun s => rfl, rfl⟩
  intro x xs cols h
  simp [processJson, h]

theorem C3_json_amended_witness :
    objectKeys (Json.obj [("a", Json.num 1)]) = .ok ["a"] ∧
    processJson (.arr [Json.obj [("a", Json.num 1)], Json.obj [("a", Json.num 2)]]) =
      .ok ([Json.obj [("a", Json.num 1)], Json.obj [("a", Json.num 2)]], ["a"]) :=
  ⟨rfl, C3_json_amended.2.1 _ _ _ rfl⟩

/-! ## KPI Deriver lemmas -/

theorem avgO_eq (l : List ℚ) (h : l ≠ []) : avgO l = some (listAvg l) := by
  unfold avgO listAvg
  rw [if_neg (by simpa [List.length_eq_zero] using h)]

theorem round2_eq (q : ℚ) (n : ℤ) (h1 : (n : ℚ) ≤ q * 100 + 1 / 2)
    (h2 : q * 100 + 1 / 2 < (n : ℚ) + 1) : round2 q = (n : ℚ) / 100 := by
  unfold round2 jsRound
  rw [Int.floor_eq_iff.mpr ⟨h1, h2⟩]

theorem mkKPI_eq_some (ds : Dataset) (i : ℕ) (col : String)
    (h : nonZeroValues ds col ≠ []) :
    mkKPI ds i col = some
      { id := i + 1
        name := humanize col
        value := round2 (listAvg (nonZeroValues ds col))
        target := round2 (listMax (nonZeroValues ds col))
        unit :=
          if containsKw col "revenue" || containsKw col "sales" ||
             containsKw col "price" || containsKw col "cost" then "$" else ""
        trend := trendOf (nonZeroValues ds col)
        changePercent := changePercentOf (nonZeroValues ds col) } := by
  unfold mkKPI
  rw [if_neg (by simpa [List.length_eq_zero] using h)]
  rfl

theorem mkKPI_fields (ds : Dataset) (i : ℕ) (col : String) (k : KPI)
    (h : mkKPI ds i col = some k) :
    nonZeroValues ds col ≠ [] ∧
    k.value = round2 (listAvg (nonZeroValues ds col)) ∧
    k.target = round2 (listMax (nonZeroValues ds col)) ∧
    k.trend = trendOf (nonZeroValues ds col) ∧
    k.changePercent = changePercentOf (nonZeroValues ds col) := by
  by_cases hne : nonZeroValues ds col = []
  · rw [mkKPI, if_pos (by simp [hne])] at h
    exact absurd h (by simp)
  · rw [mkKPI_eq_some ds i col hne] at h
    have hk := Option.some.inj h
    subst hk
    exact ⟨hne, rfl, rfl, rfl, rfl⟩

theorem mem_generateKPIs_of (ds : Dataset) (col : String)
    (hmem : col ∈ (numericCols ds).take 4) (hne : nonZeroValues ds col ≠ []) :
    ∃ i k, mkKPI ds i col = some k ∧ k ∈ generateKPIs ds := by
  obtain ⟨n, hget⟩ := List.mem_iff_get.mp hmem
  refine ⟨n.1, _, mkKPI_eq_some ds n.1 col hne, ?_⟩
  unfold generateKPIs
  rw [List.reduceOption_mem_iff]
  apply List.mem_map.mpr
  refine ⟨(n.1, col), ?_, ?_⟩
  · have hn : n.1 < ((numericCols ds).take 4).enum.length := by
      simpa [List.enum_length] using n.2
    refine List.mem_iff_get.mpr ⟨⟨n.1, hn⟩, ?_⟩
    simp only [List.get_eq_getElem] at hget ⊢
    rw [List.getElem_enum, hget]
  · simp [mkKPI_eq_some ds n.1 col hne]

theorem of_mem_generateKPIs (ds : Dataset) (k : KPI) (h : k ∈ generateKPIs ds) :
    ∃ i col, mkKPI ds i col = some k ∧ nonZeroValues ds col ≠ [] := by
  unfold generateKPIs at h
  rw [List.reduceOption_mem_iff] at h
  obtain ⟨p, _, hf⟩ := List.mem_map.mp h
  refine ⟨p.1, p.2, hf, ?_⟩
  intro hnil
  rw [mkKPI, if_pos (by simp [hnil])] at hf
  exact absurd hf (by simp)

/-! ## C1: trend-split degeneracy -/

/-- C1 (counterexample): on the single-value column `[5]` the trend
split's first half is empty, the first-half mean is JavaScript `NaN`,
and since `NaN !== 0` the deriver computes `changePercent = NaN`
(modelled `none`) rather than falling back to `0`; and on the
zero-mean-first-half series `[-1, 1, 2, 2]` the trend is `up`, not the
claimed `stable` fallback. -/
theorem C1_degeneracy_counterexample :
    ((generateKPIs dsSingle).map (fun k => (k.trend, k.changePercent)) =
      [("stable", none)]) ∧
    (avgO (firstHalf [(-1 : ℚ), 1, 2, 2]) = some 0 ∧
     trendOf [(-1 : ℚ), 1, 2, 2] = "up" ∧
     changePercentOf [(-1 : ℚ), 1, 2, 2] = some 0) := by
  have hfa : listAvg [(-1 : ℚ), 1] = 0 := by
    norm_num [listAvg, List.sum_cons, List.sum_nil]
  have hsa : listAvg [(2 : ℚ), 2] = 2 := by
    norm_num [listAvg, List.sum_cons, List.sum_nil]
  have havf : avgO (firstHalf [(-1 : ℚ), 1, 2, 2]) = some 0 := by
    rw [show firstHalf [(-1 : ℚ), 1, 2, 2] = [-1, 1] from rfl,
      avgO_eq _ (by simp), hfa]
  have havs : avgO (secondHalf [(-1 : ℚ), 1, 2, 2]) = some 2 := by
    rw [show secondHalf [(-1 : ℚ), 1, 2, 2] = [2, 2] from rfl,
      avgO_eq _ (by simp), hsa]
  refine ⟨by decide, havf, ?_, ?_⟩
  · simp only [trendOf]
    rw [havf, havs]
    norm_num [jsGtO]
  · simp only [changePercentOf]
    rw [havf, if_pos rfl, round2_eq 0 0 (by norm_num) (by norm_num)]
    norm_num

/-- C1 (amended): the KPI trend computation is total (never raises).
When the zero-filtered value sequence has exactly one element the first
half is empty: the trend is `stable` but `changePercent` is `NaN`
(modelled `none`), not 0.  When the first half is non-empty with mean 0,
`changePercent` falls back to 0, while the trend is still classified by
the ordinary mean comparison (it need not be `stable`). -/
theorem C1_degeneracy_amended (vs : List ℚ) :
    (vs.length = 1 → trendOf vs = "stable" ∧ changePercentOf vs = none) ∧
    (firstHalf vs ≠ [] → avgO (firstHalf vs) = some 0 → changePercentOf vs = some 0) := by
  constructor
  · intro h1
    have hfnil : firstHalf vs = [] := by simp [firstHalf, h1]
    have hfa : avgO (firstHalf vs) = none := by simp [avgO, hfnil]
    constructor
    · simp only [trendOf]
      rw [hfa]
      cases avgO (secondHalf vs) <;> simp [jsGtO]
    · simp only [changePercentOf]
      rw [hfa, if_neg (by simp)]
  · intro _hf h0
    simp only [changePercentOf]
    rw [h0, if_pos rfl, round2_eq 0 0 (by norm_num) (by norm_num)]
    norm_num

theorem C1_degeneracy_amended_witness :
    (trendOf [(5 : ℚ)] = "stable" ∧ changePercentOf [(5 : ℚ)] = none) ∧
    changePercentOf [(-1 : ℚ), 1, 2, 2] = some 0 :=
  ⟨(C1_degeneracy_amended [5]).1 rfl,
   (C1_degeneracy_amended [(-1 : ℚ), 1, 2, 2]).2 (by decide) (by
     rw [show firstHalf [(-1 : ℚ), 1, 2, 2] = [-1, 1] from rfl, avgO_eq _ (by simp)]
     norm_num [listAvg, List.sum_cons, List.sum_nil])⟩

/-! ## C6: KPI zero-exclusion -/

/-- C6: for every column among the first four numeric columns whose
zero-filtered parseable values are non-empty, the deriver emits a KPI
whose `value` is the mean of the non-zero values rounded to 2 decimals
and whose `target` is their maximum rounded to 2 decimals (zeros are
excluded before the statistics). -/
theorem C6_kpi_zero_exclusion (ds : Dataset) (col : String)
    (hmem : col ∈ (numericCols ds).take 4)
    (hne : nonZeroValues ds col ≠ []) :
    ∃ k ∈ generateKPIs ds,
      k.value = round2 (listAvg (nonZeroValues ds col)) ∧
      k.target = round2 (listMax (nonZeroValues ds col)) := by
  obtain ⟨i, k, hmk, hkmem⟩ := mem_generateKPIs_of ds col hmem hne
  obtain ⟨_, hv, ht, _, _⟩ := mkKPI_fields ds i col k hmk
  exact ⟨k, hkmem, hv, ht⟩

theorem C6_kpi_zero_exclusion_witness :
    ("x" ∈ (numericCols dsZero2).take 4) ∧ nonZeroValues dsZero2 "x" ≠ [] ∧
    ∃ k ∈ generateKPIs dsZero2, k.value = 15 ∧ k.target = 20 := by
  refine ⟨by decide, by decide, ?_⟩
  obtain ⟨k, hk, hv, ht⟩ := C6_kpi_zero_exclusion dsZero2 "x" (by decide) (by decide)
  have hvals : nonZeroValues dsZero2 "x" = [10, 20] := by decide
  refine ⟨k, hk, ?_, ?_⟩
  · rw [hv, hvals,
      show listAvg [(10 : ℚ), 20] = 15 by norm_num [listAvg, List.sum_cons, List.sum_nil],
      round2_eq 15 1500 (by norm_num) (by norm_num)]
    norm_num
  · rw [ht, hvals,
      show listMax [(10 : ℚ), 20] = 20 by
        simp [listMax, List.foldl]
        norm_num,
      round2_eq 20 2000 (by norm_num) (by norm_num)]
    norm_num

/-! ## C7: trend classification -/

/-- C7: when both halves of the zero-filtered value sequence are
non-empty and the first-half mean is non-zero, the sequence splits at
its midpoint, the trend is `up`/`down`/`stable` by comparing the half
means, and `changePercent` is `(secondAvg - firstAvg) / firstAvg * 100`
rounded to 2 decimals. -/
theorem C7_trend_classification (vs : List ℚ)
    (h1 : firstHalf vs ≠ []) (h2 : secondHalf vs ≠ [])
    (hf : listAvg (firstHalf vs) ≠ 0) :
    firstHalf vs ++ secondHalf vs = vs ∧
    trendOf vs = (if listAvg (firstHalf vs) < listAvg (secondHalf vs) then "up"
      else if listAvg (secondHalf vs) < listAvg (firstHalf vs) then "down"
      else "stable") ∧
    changePercentOf vs =
      some (round2 ((listAvg (secondHalf vs) - listAvg (firstHalf vs)) /
        listAvg (firstHalf vs) * 100)) := by
  have hfa : avgO (firstHalf vs) = some (listAvg (firstHalf vs)) := avgO_eq _ h1
  have hsa : avgO (secondHalf vs) = some (listAvg (secondHalf vs)) := avgO_eq _ h2
  refine ⟨List.take_append_drop _ _, ?_, ?_⟩
  · simp only [trendOf]
    rw [hfa, hsa]
    by_cases hcmp : listAvg (firstHalf vs) < listAvg (secondHalf vs)
    · simp [jsGtO, hcmp]
    · by_cases hcmp2 : listAvg (secondHalf vs) < listAvg (firstHalf vs) <;>
        simp [jsGtO, hcmp, hcmp2]
  · simp only [changePercentOf]
    rw [hfa, hsa, if_neg (by simp [hf])]

theorem C7_trend_classification_witness :
    firstHalf [(10 : ℚ), 10, 30, 30] ≠ [] ∧ secondHalf [(10 : ℚ), 10, 30, 30] ≠ [] ∧
    listAvg (firstHalf [(10 : ℚ), 10, 30, 30]) ≠ 0 ∧
    trendOf [(10 : ℚ), 10, 30, 30] = "up" ∧
    changePercentOf [(10 : ℚ), 10, 30, 30] = some 200 := by
  have hfa : listAvg (firstHalf [(10 : ℚ), 10, 30, 30]) = 10 := by
    rw [show firstHalf [(10 : ℚ), 10, 30, 30] = [10, 10] from rfl]
    norm_num [listAvg, List.sum_cons, List.sum_nil]
  have hsa : listAvg (secondHalf [(10 : ℚ), 10, 30, 30]) = 30 := by
    rw [show secondHalf [(10 : ℚ), 10, 30, 30] = [30, 30] from rfl]
    norm_num [listAvg, List.sum_cons, List.sum_nil]
  have h := C7_trend_classification [10, 10, 30, 30] (by decide) (by decide)
    (by rw [hfa]; norm_num)
  refine ⟨by decide, by decide, by rw [hfa]; norm_num, ?_, ?_⟩
  · rw [h.2.1, hfa, hsa, if_pos (by norm_num)]
  · rw [h.2.2, hfa, hsa,
      show ((30 : ℚ) - 10) / 10 * 100 = 200 by norm_num,
      round2_eq 200 20000 (by norm_num) (by norm_num)]
    norm_num

/-! ## C9: filter composition -/

theorem stepFilter_eq_filter (filters : String → Option ColFilter) (col : String)
    (data : List Row) :
    (match filters col with
     | none => data
     | some f =>
       let acc1 := match f.min with
         | some m => data.filter (fun r => jsGeNum (rowGet r col) m)
         | none => data
       match f.max with
       | some m => acc1.filter (fun r => jsLeNum (rowGet r col) m)
       | none => acc1) =
    data.filter (fun r => colPass filters col r) := by
  cases hf : filters col with
  | none => simp [colPass, hf, List.filter_true]
  | some f =>
    cases hmin : f.min with
    | none =>
      cases hmax : f.max with
      | none => simp [colPass, hf, hmin, hmax, List.filter_true]
      | some m => simp [colPass, hf, hmin, hmax]
    | some m =>
      cases hmax : f.max with
      | none => simp [colPass, hf, hmin, hmax]
      | some m2 =>
        simp only [colPass, hf, hmin, hmax, List.filter_filter]
        exact List.filter_congr (fun r _ => Bool.and_comm _ _)

theorem applyFilters_eq_filter (cols : List String)
    (filters : String → Option ColFilter) (data : List Row) :
    applyFilters cols filters data = data.filter (passesAll cols filters) := by
  induction cols generalizing data with
  | nil => exact (List.filter_eq_self.mpr (fun a _ => rfl)).symm
  | cons c cs ih =>
    have hstep : applyFilters (c :: cs) filters data =
        applyFilters cs filters (data.filter (fun r => colPass filters c r)) := by
      show List.foldl _ _ (c :: cs) = _
      rw [List.foldl_cons, ← stepFilter_eq_filter filters c data]
      rfl
    rw [hstep, ih, List.filter_filter]
    apply List.filter_congr
    intro r _
    simp [passesAll, List.all_cons, Bool.and_comm]

theorem all_congr_perm {α : Type} (f : α → Bool) {l1 l2 : List α}
    (h : l1.Perm l2) : l1.all f = l2.all f := by
  induction h with
  | nil => rfl
  | cons x _ ih => simp [List.all_cons, ih]
  | swap x y l => simp [List.all_cons, Bool.and_left_comm]
  | trans _ _ ih1 ih2 => rw [ih1, ih2]

/-- C9: the per-column filter pass keeps exactly the rows whose value in
each actively-filtered column lies inclusively between that column's min
and max (a row must satisfy all active filters), and the outcome is
independent of the order the filtered columns are visited. -/
theorem C9_filter_composition (cols : List String)
    (filters : String → Option ColFilter) (data : List Row) :
    applyFilters cols filters data = data.filter (passesAll cols filters) ∧
    (∀ cols', cols'.Perm cols →
      applyFilters cols' filters data = applyFilters cols filters data) := by
  refine ⟨applyFilters_eq_filter cols filters data, ?_⟩
  intro cols' hperm
  rw [applyFilters_eq_filter, applyFilters_eq_filter]
  apply List.filter_congr
  intro r _
  exact all_congr_perm _ hperm

theorem C9_filter_composition_witness :
    applyFilters ["x"] filtersEx rowsFilterEx =
      rowsFilterEx.filter (passesAll ["x"] filtersEx) ∧
    applyFilters ["x"] filtersEx rowsFilterEx = applyFilters ["x"] filtersEx rowsFilterEx ∧
    applyFilters ["x"] filtersEx rowsFilterEx =
      [[("x", JsValue.num 5)], [("x", JsValue.num 10)]] :=
  ⟨(C9_filter_composition ["x"] filtersEx rowsFilterEx).1,
   (C9_filter_composition ["x"] filtersEx rowsFilterEx).2 ["x"] (List.Perm.refl _),
   by decide⟩

/-! ## C10: value vs target invariant -/

theorem le_foldl_max (xs : List ℚ) (x : ℚ) :
    x ≤ xs.foldl max x ∧ ∀ y ∈ xs, y ≤ xs.foldl max x := by
  induction xs generalizing x with
  | nil => simp
  | cons a as ih =>
    refine ⟨le_trans (le_max_left x a) (ih (max x a)).1, ?_⟩
    intro y hy
    rcases List.mem_cons.mp hy with h | h
    · subst h
      exact le_trans (le_max_right x y) (ih (max x y)).1
    · exact (ih (max x a)).2 y h

theorem le_listMax (l : List ℚ) (x : ℚ) (hx : x ∈ l) : x ≤ listMax l := by
  cases l with
  | nil => exact absurd hx (by simp)
  | cons a as =>
    rcases List.mem_cons.mp hx with h | h
    · subst h
      exact (le_foldl_max as x).1
    · exact (le_foldl_max as a).2 x h

theorem listAvg_le_listMax (l : List ℚ) (h : l ≠ []) : listAvg l ≤ listMax l := by
  have hsum : l.sum ≤ l.length • listMax l :=
    List.sum_le_card_nsmul l _ (fun x hx => le_listMax l x hx)
  have hlen : 0 < (l.length : ℚ) := by
    have : l.length ≠ 0 := by simpa [List.length_eq_zero] using h
    exact_mod_cast Nat.pos_of_ne_zero this
  unfold listAvg
  rw [div_le_iff₀ hlen]
  calc l.sum ≤ l.length • listMax l := hsum
    _ = listMax l * l.length := by rw [nsmul_eq_mul]; ring

theorem round2_mono {a b : ℚ} (h : a ≤ b) : round2 a ≤ round2 b := by
  unfold round2 jsRound
  have hfl : Int.floor (a * 100 + 1 / 2) ≤ Int.floor (b * 100 + 1 / 2) :=
    Int.floor_le_floor (by linarith)
  have hflq : ((Int.floor (a * 100 + 1 / 2) : ℚ)) ≤ (Int.floor (b * 100 + 1 / 2) : ℚ) := by
    exact_mod_cast hfl
  linarith

/-- C10 (counterexample): for the all-negative column `[-10, -20]` the
emitted KPI has `value = -15 ≤ target = -10`, yet the rendered
"vs Maximum" percentage `Math.round((value / target) * 100)` is `150`,
which exceeds 100 — the percentage bound in the claim fails for
negative-valued columns. -/
theorem C10_vs_max_counterexample :
    (generateKPIs dsNeg).map KPI.value = [-15] ∧
    (generateKPIs dsNeg).map KPI.target = [-10] ∧
    (generateKPIs dsNeg).map vsMaxPercent = [some 150] ∧
    ¬ ((150 : ℤ) ≤ 100) := by
  have hvals : nonZeroValues dsNeg "x" = [-10, -20] := by decide
  have hmk := mkKPI_eq_some dsNeg 0 "x" (by rw [hvals]; simp)
  have hgen : generateKPIs dsNeg =
      ((([(0, "x")] : List (ℕ × String)).map (fun p => mkKPI dsNeg p.1 p.2)).reduceOption) := rfl
  have havg : listAvg (nonZeroValues dsNeg "x") = -15 := by
    rw [hvals]
    norm_num [listAvg, List.sum_cons, List.sum_nil]
  have hmax : listMax (nonZeroValues dsNeg "x") = -10 := by
    rw [hvals]
    simp only [listMax, List.foldl]
    norm_num
  have hv : round2 (listAvg (nonZeroValues dsNeg "x")) = -15 := by
    rw [havg, round2_eq (-15) (-1500) (by norm_num) (by norm_num)]
    norm_num
  have ht : round2 (listMax (nonZeroValues dsNeg "x")) = -10 := by
    rw [hmax, round2_eq (-10) (-1000) (by norm_num) (by norm_num)]
    norm_num
  have hfloor : jsRound ((-15 : ℚ) / -10 * 100) = 150 := by
    rw [show (-15 : ℚ) / -10 * 100 = 150 by norm_num]
    unfold jsRound
    exact Int.floor_eq_iff.mpr ⟨by norm_num, by norm_num⟩
  refine ⟨?_, ?_, ?_, by norm_num⟩
  · rw [hgen]
    simp only [List.map_cons, List.map_nil, hmk, List.reduceOption_cons_of_some,
      List.reduceOption_nil]
    simp [hv]
  · rw [hgen]
    simp only [List.map_cons, List.map_nil, hmk, List.reduceOption_cons_of_some,
      List.reduceOption_nil]
    simp [ht]
  · rw [hgen]
    simp only [List.map_cons, List.map_nil, hmk, List.reduceOption_cons_of_some,
      List.reduceOption_nil]
    simp only [vsMaxPercent, ht, hv]
    rw [if_neg (by norm_num), hfloor]

/-- C10 (amended): every KPI actually emitted by the deriver satisfies
`value ≤ target` (rounding to 2 decimals is monotone and the mean of the
non-zero values never exceeds their maximum); the "vs Maximum"
percentage derived from `value / target` is at most 100 whenever the
target is positive — for all-negative columns it can exceed 100. -/
theorem C10_value_le_target (ds : Dataset) (k : KPI) (hk : k ∈ generateKPIs ds) :
    k.value ≤ k.target ∧ (0 < k.target → ∀ p, vsMaxPercent k = some p → p ≤ 100) := by
  obtain ⟨i, col, hmk, hne⟩ := of_mem_generateKPIs ds k hk
  obtain ⟨_, hv, ht, _, _⟩ := mkKPI_fields ds i col k hmk
  have hvt : k.value ≤ k.target := by
    rw [hv, ht]
    exact round2_mono (listAvg_le_listMax _ hne)
  refine ⟨hvt, ?_⟩
  intro hpos p hp
  unfold vsMaxPercent at hp
  rw [if_neg (by intro h0; rw [h0] at hpos; exact lt_irrefl _ hpos)] at hp
  have hp' := Option.some.inj hp
  subst hp'
  have hle : k.value / k.target * 100 ≤ 100 := by
    have h1 : k.value / k.target ≤ 1 := (div_le_one hpos).mpr hvt
    linarith
  unfold jsRound
  have hmono := Int.floor_le_floor
    (show k.value / k.target * 100 + 1 / 2 ≤ (100 : ℚ) + 1 / 2 by linarith)
  have hfl : Int.floor ((100 : ℚ) + 1 / 2) = 100 :=
    Int.floor_eq_iff.mpr ⟨by norm_num, by norm_num⟩
  omega

theorem C10_value_le_target_witness :
    kPos ∈ generateKPIs dsPos ∧
    (kPos.value ≤ kPos.target ∧
      (0 < kPos.target → ∀ p, vsMaxPercent kPos = some p → p ≤ 100)) := by
  have hmem : kPos ∈ generateKPIs dsPos := by
    have hvals : nonZeroValues dsPos "x" = [10, 20] := by decide
    have hmk := mkKPI_eq_some dsPos 0 "x" (by rw [hvals]; simp)
    have hgen : generateKPIs dsPos =
        ((([(0, "x")] : List (ℕ × String)).map (fun p => mkKPI dsPos p.1 p.2)).reduceOption) := rfl
    have hv : round2 (listAvg (nonZeroValues dsPos "x")) = 15 := by
      rw [hvals, show listAvg [(10 : ℚ), 20] = 15 by
          norm_num [listAvg, List.sum_cons, List.sum_nil],
        round2_eq 15 1500 (by norm_num) (by norm_num)]
      norm_num
    have ht : round2 (listMax (nonZeroValues dsPos "x")) = 20 := by
      rw [hvals, show listMax [(10 : ℚ), 20] = 20 by
          simp only [listMax, List.foldl]
          norm_num,
        round2_eq 20 2000 (by norm_num) (by norm_num)]
      norm_num
    have htr : trendOf (nonZeroValues dsPos "x") = "up" := by
      rw [hvals]
      simp only [trendOf]
      rw [show firstHalf [(10 : ℚ), 20] = [10] from rfl,
        show secondHalf [(10 : ℚ), 20] = [20] from rfl,
        avgO_eq _ (by simp), avgO_eq _ (by simp),
        show listAvg [(10 : ℚ)] = 10 by norm_num [listAvg, List.sum_cons, List.sum_nil],
        show listAvg [(20 : ℚ)] = 20 by norm_num [listAvg, List.sum_cons, List.sum_nil]]
      norm_num [jsGtO]
    have hcp : changePercentOf (nonZeroValues dsPos "x") = some 100 := by
      rw [hvals]
      simp only [changePercentOf]
      rw [show firstHalf [(10 : ℚ), 20] = [10] from rfl,
        show secondHalf [(10 : ℚ), 20] = [20] from rfl,
        avgO_eq _ (by simp), avgO_eq _ (by simp),
        show listAvg [(10 : ℚ)] = 10 by norm_num [listAvg, List.sum_cons, List.sum_nil],
        show listAvg [(20 : ℚ)] = 20 by norm_num [listAvg, List.sum_cons, List.sum_nil],
        if_neg (by norm_num)]
      show some (round2 (((20 : ℚ) - 10) / 10 * 100)) = some 100
      rw [show ((20 : ℚ) - 10) / 10 * 100 = 100 by norm_num,
        round2_eq 100 10000 (by norm_num) (by norm_num)]
      norm_num
    have hname : humanize "x" = "X" := by decide
    have hunit : (if containsKw "x" "revenue" || containsKw "x" "sales" ||
        containsKw "x" "price" || containsKw "x" "cost" then "$" else "") = "" := by decide
    rw [hgen]
    simp only [List.map_cons, List.map_nil, hmk, List.reduceOption_cons_of_some,
      List.reduceOption_nil, hv, ht, htr, hcp, hname, hunit]
    simp [kPos]
  exact ⟨hmem, C10_value_le_target dsPos kPos hmem⟩

end SDA
